import Mathlib

/-
Verification development for the `modl` streaming matrix-factorisation engine
(src/modl/dict_fact.py).  The numeric core is embedded shallowly over ℚ:
NumPy arrays become functions on `Fin`, in-place mutation becomes explicit
state passing, and a Python attribute that may not exist becomes an `Option`
(reading `none` models the `AttributeError` the interpreter would raise).
External collaborators that are not part of this repository (the elastic-net
norm/projection primitives, `numpy.linalg.solve`, the coordinate-descent
solver) are modelled from the contracts given in the specification; each such
definition carries a doc comment starting with `Modelled from the spec:`.
-/

namespace Modl

open Matrix BigOperators

/-- Modelled from the spec: the elastic-net norm primitive `enet_norm_fast`
(from `modl._utils.enet_proj_fast`, not under src/): the value
`r·‖v‖₁ + (1−r)·‖v‖₂²/2` for mixing ratio `r`.  The norm is a sum over
coordinates, hence additive over disjoint coordinate sets. -/
def enet_norm_fast {s : ℕ} (v : Fin s → ℚ) (l1r : ℚ) : ℚ :=
  ∑ t, (l1r * |v t| + (1 - l1r) * (v t) ^ 2 / 2)

/-- Modelled from the spec: the elastic-net ball projection primitive
`enet_projection_fast` (from `modl._utils.enet_proj_fast`, not under src/).
It maps `v` into the elastic-net ball of the given radius and is the identity
on vectors already inside the ball; a vector outside the ball is shrunk by the
positive factor `radius / ‖v‖`, which lands it inside the ball (the exact
root-finding of the true projection is irrelevant to the claims, which only
use the two contract facts just stated). -/
def enet_projection_fast {s : ℕ} (v : Fin s → ℚ) (radius l1r : ℚ) :
    Fin s → ℚ :=
  if enet_norm_fast v l1r ≤ max radius 0 then v
  else if radius ≤ 0 then fun _ => 0
  else fun t => radius / enet_norm_fast v l1r * v t

/-- Modelled from the spec: `enet_scale` (from `modl._utils.enet_proj`, not
under src/) rescales each atom so that it lies in the elastic-net ball of the
given radius. -/
def enet_scale {k f : ℕ} (D : Matrix (Fin k) (Fin f) ℚ) (l1r radius : ℚ) :
    Matrix (Fin k) (Fin f) ℚ :=
  fun i => enet_projection_fast (D i) radius l1r

/-- Source line 381: `components_subset[components_subset < 0] = 0` — the
non-negativity clip applied inside the per-atom sweep.  Note that the source
indexes with a boolean mask over the whole subset matrix, so the definition
clips every row, not only the row of the atom being visited. -/
def clip_negative {k s : ℕ} (M : Matrix (Fin k) (Fin s) ℚ) :
    Matrix (Fin k) (Fin s) ℚ :=
  fun i t => if M i t < 0 then 0 else M i t

/-- State of the per-atom block-coordinate sweep of `_update_dict`
(source lines 370-390): the working copies `components_subset` and
`gradient_subset` plus the atom norm cache `comp_norm_`. -/
structure SweepState (k s : ℕ) where
  compSub : Matrix (Fin k) (Fin s) ℚ
  gradSub : Matrix (Fin k) (Fin s) ℚ
  comp_norm : Fin k → ℚ

/-- The middle of one sweep iteration at atom `a` (source lines 377-381):
the working subset matrix after the guarded unconstrained update
`D[k] ← gradient[k]/C[k,k]` (taken only when `C[k,k] > 1e-20`; the source
comment reads `# Else do not update`) followed by the whole-matrix
non-negativity clip when `comp_pos` is set.  Row `a` of the gradient used
here is the rank-1-corrected `gradient_subset[k] = gradSub[k] + C[k,k]·D[k]`
of source line 375. -/
def sweep_mid {k s : ℕ} (comp_pos : Bool) (C : Matrix (Fin k) (Fin k) ℚ)
    (st : SweepState k s) (a : Fin k) : Matrix (Fin k) (Fin s) ℚ :=
  let comp1 : Matrix (Fin k) (Fin s) ℚ :=
    if 1 / 10 ^ 20 < C a a then
      fun i t =>
        if i = a then (st.gradSub a t + C a a * st.compSub a t) / C a a
        else st.compSub i t
    else st.compSub
  if comp_pos then clip_negative comp1 else comp1

/-- One iteration of the sweep of `_update_dict` at atom `a`
(source lines 371-390):
norm-cache charge, rank-1 gradient correction (`ger(1.0, C_[k], D[k])`),
the guarded update and clip (`sweep_mid`), the elastic-net projection
against the charged norm cache, the norm-cache discharge, and the undoing
rank-1 correction with the new atom value. -/
def sweep_step {k s : ℕ} (comp_pos : Bool) (comp_l1r : ℚ)
    (C : Matrix (Fin k) (Fin k) ℚ) (st : SweepState k s) (a : Fin k) :
    SweepState k s :=
  let nu := enet_norm_fast (st.compSub a) comp_l1r
  let cn1 : Fin k → ℚ := fun i => if i = a then st.comp_norm a + nu else st.comp_norm i
  let grad1 : Matrix (Fin k) (Fin s) ℚ :=
    fun i t => st.gradSub i t + C a i * st.compSub a t
  let comp2 := sweep_mid comp_pos C st a
  let proj : Fin s → ℚ := enet_projection_fast (comp2 a) (cn1 a) comp_l1r
  let comp3 : Matrix (Fin k) (Fin s) ℚ := fun i t => if i = a then proj t else comp2 i t
  let nu2 := enet_norm_fast (comp3 a) comp_l1r
  let cn2 : Fin k → ℚ := fun i => if i = a then cn1 a - nu2 else cn1 i
  let grad2 : Matrix (Fin k) (Fin s) ℚ :=
    fun i t => grad1 i t - C a i * comp3 a t
  ⟨comp3, grad2, cn2⟩

/-- NumPy fancy column indexing `D[:, subset]` (a copy). -/
def gather_columns {k f s : ℕ} (D : Matrix (Fin k) (Fin f) ℚ)
    (subset : Fin s → Fin f) : Matrix (Fin k) (Fin s) ℚ :=
  fun i t => D i (subset t)

/-- Source line 392: `self.components_[:, subset] = components_subset` —
write the updated subset columns back into the full dictionary.  A column in
the range of `subset` receives the corresponding updated value (located with
`Fin.find`); every other column keeps its previous value. -/
def scatter_columns {k f s : ℕ} (D : Matrix (Fin k) (Fin f) ℚ)
    (subset : Fin s → Fin f) (M : Matrix (Fin k) (Fin s) ℚ) :
    Matrix (Fin k) (Fin f) ℚ :=
  fun i c =>
    match Fin.find (fun t => subset t = c) with
    | some t => M i t
    | none => D i c

/-- Result of `DictFact._update_dict`: the persistent state it writes, namely
`components_`, `comp_norm_` and (when Gram maintenance is active) `G_`.
The local buffer `gradient_subset` is a NumPy fancy-indexing copy that is
never written back (source line 361 copies, and no line assigns
`self.gradient_[:, subset]` inside `_update_dict`). -/
structure DictUpdateResult (k f : ℕ) where
  components_ : Matrix (Fin k) (Fin f) ℚ
  comp_norm_ : Fin k → ℚ
  G_ : Matrix (Fin k) (Fin k) ℚ

/-- `DictFact._update_dict` (source lines 356-398) over an active feature
subset: take working copies of the subset columns, optionally subtract the
pre-update subset block from the Gram matrix (small-subset path), form the
gradient `B(subset) − C·D(subset)`, run the per-atom sweep in the given
order, write the subset columns back, and finish the Gram maintenance
(add back the new block, or fully recompute on the large-subset path). -/
def update_dict {k f s : ℕ} (G_agg : String) (comp_pos : Bool)
    (comp_l1r : ℚ) (C : Matrix (Fin k) (Fin k) ℚ)
    (subset : Fin s → Fin f) (order : List (Fin k))
    (components : Matrix (Fin k) (Fin f) ℚ)
    (gradient : Matrix (Fin k) (Fin f) ℚ)
    (comp_norm : Fin k → ℚ) (G : Matrix (Fin k) (Fin k) ℚ) :
    DictUpdateResult k f :=
  let components_subset : Matrix (Fin k) (Fin s) ℚ :=
    gather_columns components subset
  let G1 : Matrix (Fin k) (Fin k) ℚ :=
    if G_agg = "full" ∧ (s : ℚ) < (f : ℚ) / 2 then
      G - components_subset * components_subsetᵀ
    else G
  let gradient_subset : Matrix (Fin k) (Fin s) ℚ :=
    fun i t => gather_columns gradient subset i t
      - ∑ j, C i j * components_subset j t
  let final :=
    order.foldl (sweep_step comp_pos comp_l1r C)
      ⟨components_subset, gradient_subset, comp_norm⟩
  let components1 := scatter_columns components subset final.compSub
  let G2 : Matrix (Fin k) (Fin k) ℚ :=
    if G_agg = "full" then
      if (s : ℚ) < (f : ℚ) / 2 then G1 + final.compSub * final.compSubᵀ
      else components1 * components1ᵀ
    else G1
  ⟨components1, final.comp_norm, G2⟩

/-- Modelled from the spec: `numpy.linalg.solve` (external).  For an
invertible matrix `A` it returns the unique solution of `A·x = v`, here in
adjugate form `det(A)⁻¹ • adj(A)·v`, which equals `A⁻¹·v` whenever
`det A ≠ 0` (for a singular `A` the source raises; the value returned here in
that case is never relied upon). -/
def npSolve {n : ℕ} (A : Matrix (Fin n) (Fin n) ℚ) (v : Fin n → ℚ) :
    Fin n → ℚ :=
  (A.det)⁻¹ • A.adjugate.mulVec v

/-- Modelled from the spec: the scalar soft-thresholding map used by the
external coordinate-descent elastic-net solver. -/
def soft_threshold (z g : ℚ) : ℚ :=
  if g < z then z - g else if z < -g then z + g else 0

/-- Modelled from the spec: one coordinate update of the external
coordinate-descent elastic-net solver (`sklearn.linear_model.cd_fast`,
external): minimize in coordinate `j` the penalized quadratic given by the
Gram matrix `G` and linear term `q`, with L1 weight `l1`, L2 weight `l2` and
optional non-negativity. -/
def cd_update {n : ℕ} (G : Matrix (Fin n) (Fin n) ℚ) (q : Fin n → ℚ)
    (l1 l2 : ℚ) (pos : Bool) (x : Fin n → ℚ) (j : Fin n) : Fin n → ℚ :=
  let rho := q j - (∑ t, G j t * x t) + G j j * x j
  let z := if pos then max rho 0 else rho
  fun i => if i = j then soft_threshold z l1 / (G j j + l2) else x i

/-- Modelled from the spec: the external coordinate-descent elastic-net
solver primitive with its fixed iteration cap of 100 sweeps (the duality-gap
early exit only stops iterating sooner and is not modelled; the solver is a
deterministic function of its inputs, which is all the claims use). -/
def cd_solve {n : ℕ} (G : Matrix (Fin n) (Fin n) ℚ) (q : Fin n → ℚ)
    (x0 : Fin n → ℚ) (l1 l2 : ℚ) (pos : Bool) : Fin n → ℚ :=
  (List.range 100).foldl
    (fun x _ => (List.finRange n).foldl (cd_update G q l1 l2 pos) x) x0

/-- Source lines 407 and 409: `G.flat[::n_components + 1] += alpha` applied
to the three-dimensional stack `G` of per-row Gram matrices.  Flattened
row-major, entry `(q, r, c)` sits at flat index `q·n² + r·n + c`, so the
stride-`n+1` pattern touches exactly the entries with
`(q·n² + r·n + c) mod (n+1) = 0`.  (For `q = 0` these are the diagonal
entries of the first matrix; for most other `q` they are off-diagonal.) -/
def add_flat_stride {b n : ℕ} (G : Fin b → Matrix (Fin n) (Fin n) ℚ)
    (alpha : ℚ) : Fin b → Matrix (Fin n) (Fin n) ℚ :=
  fun q r c =>
    G q r c + if (q.val * n * n + r.val * n + c.val) % (n + 1) = 0 then alpha else 0

/-- `enet_regression_multi_gram_` (source lines 401-422), the per-row
("average" aggregation) code solver.  For `l1r = 0` the loop adds
`alpha` along the flat stride of the whole 3-d stack, solves row `i` against
the `i`-th matrix of the modified stack, and subtracts the same pattern
(restoring the stack exactly, in exact arithmetic).  Otherwise each row is
passed to the external coordinate-descent solver.  Returns the final stack
(the caller's array after the call) and the code matrix. -/
def enet_regression_multi_gram {b n f : ℕ}
    (G : Fin b → Matrix (Fin n) (Fin n) ℚ) (Dx : Fin b → Fin n → ℚ)
    (X : Matrix (Fin b) (Fin f) ℚ) (code : Fin b → Fin n → ℚ)
    (l1r alpha : ℚ) (positive : Bool) :
    (Fin b → Matrix (Fin n) (Fin n) ℚ) × (Fin b → Fin n → ℚ) :=
  if l1r = 0 then
    (List.finRange b).foldl
      (fun st i =>
        let G1 := add_flat_stride st.1 alpha
        let code1 : Fin b → Fin n → ℚ :=
          fun j => if j = i then npSolve (G1 i) (Dx i) else st.2 j
        (add_flat_stride G1 (-alpha), code1))
      (G, code)
  else
    (G, fun i => cd_solve (G i) (Dx i) (code i)
          (alpha * l1r) (alpha * (1 - l1r)) positive)

/-- `enet_regression_single_gram_` (source lines 425-446), the shared-Gram
code solver.  For `code_l1r = 0` the source copies `G`, adds
`code_alpha` along the (two-dimensional, hence genuinely diagonal) stride,
and performs one batched solve `code = solve(G, Dxᵀ)ᵀ`; the caller's `G` is
untouched thanks to the copy.  Otherwise each row goes to the external
coordinate-descent solver, which reads `G` and writes only `code`.
Returns the caller's `G` after the call together with the code matrix. -/
def enet_regression_single_gram {m n f : ℕ} (G : Matrix (Fin n) (Fin n) ℚ)
    (Dx : Matrix (Fin m) (Fin n) ℚ) (X : Matrix (Fin m) (Fin f) ℚ)
    (code : Matrix (Fin m) (Fin n) ℚ) (code_l1r code_alpha : ℚ)
    (code_pos : Bool) :
    Matrix (Fin n) (Fin n) ℚ × Matrix (Fin m) (Fin n) ℚ :=
  if code_l1r = 0 then
    let Gc : Matrix (Fin n) (Fin n) ℚ :=
      fun r c => G r c + if r = c then code_alpha else 0
    (G, fun i => npSolve Gc (Dx i))
  else
    (G, fun i => cd_solve G (Dx i) (code i)
          (code_alpha * code_l1r) (code_alpha * (1 - code_l1r))
          code_pos)

/-- The constructor configuration of `DictFact` (source lines 25-64).
Aggregation modes are the literal strings compared in the source. -/
structure Config where
  reduction : ℚ
  learning_rate : ℚ
  sample_learning_rate : ℚ
  Dx_agg : String
  G_agg : String
  code_l1r : ℚ
  code_alpha : ℚ
  comp_l1r : ℚ
  comp_pos : Bool
  code_pos : Bool
  batch_size : ℕ
  n_epochs : ℕ
  verbose : ℕ

/-- The mutable attributes of a `DictFact` instance, for `n` training
samples, `k` components and `f` features.  An `Option` field models a Python
attribute that may not exist: `none` means the attribute was never assigned,
so reading it raises `AttributeError`.  In particular `G_average` and
`Dx_average` (without the trailing underscore) are the attribute names read
by `fit` at source lines 87-89; no line of the source ever assigns them (the
per-row caches assigned by `prepare` are `G_average_` and `Dx_average_`). -/
structure DictFact (n k f : ℕ) where
  cfg : Config
  G_average_ : Option (Fin n → Matrix (Fin k) (Fin k) ℚ)
  Dx_average_ : Option (Matrix (Fin n) (Fin k) ℚ)
  G_average : Option (Fin n → Matrix (Fin k) (Fin k) ℚ)
  Dx_average : Option (Matrix (Fin n) (Fin k) ℚ)
  C_ : Matrix (Fin k) (Fin k) ℚ
  B_ : Matrix (Fin k) (Fin f) ℚ
  gradient_ : Matrix (Fin k) (Fin f) ℚ
  components_ : Matrix (Fin k) (Fin f) ℚ
  code_ : Matrix (Fin n) (Fin k) ℚ
  comp_norm_ : Fin k → ℚ
  G_ : Option (Matrix (Fin k) (Fin k) ℚ)
  n_iter_ : ℕ
  sample_n_iter_ : Fin n → ℕ
  verbose_iter_ : Option (List ℚ)

/-- `DictFact.prepare` (source lines 123-187).  The externally produced
quantities — the randomly initialised dictionary (source lines 155-161) and
the numeric content of the verbose logspace grid (lines 182-185) — enter as
the parameters `D_init` and `verbose_grid`; everything else follows the
source: the average caches are zero-initialised exactly when the matching
aggregation mode is `"average"`, statistics are zeroed, the (optionally
sign-flipped) initial dictionary is `enet_scale`d to radius 1, codes start at
one, `G_` is set only in `"full"` mode, counters start at zero, and
`verbose_iter_` is assigned only when `verbose` is nonzero. -/
def prepare {n k f : ℕ} (cfg : Config) (D_init : Matrix (Fin k) (Fin f) ℚ)
    (verbose_grid : List ℚ) : DictFact n k f :=
  let D0 : Matrix (Fin k) (Fin f) ℚ :=
    if cfg.comp_pos then
      fun i j => if D_init i j ≤ 0 then -(D_init i j) else D_init i j
    else D_init
  let D1 := enet_scale D0 cfg.comp_l1r 1
  { cfg := cfg
    G_average_ := if cfg.G_agg = "average" then some (fun _ => 0) else none
    Dx_average_ := if cfg.Dx_agg = "average" then some 0 else none
    G_average := none
    Dx_average := none
    C_ := 0
    B_ := 0
    gradient_ := 0
    components_ := D1
    code_ := fun _ _ => 1
    comp_norm_ := 0
    G_ := if cfg.G_agg = "full" then some (D1 * D1ᵀ) else none
    n_iter_ := 0
    sample_n_iter_ := fun _ => 0
    verbose_iter_ := if cfg.verbose ≠ 0 then some verbose_grid else none }

/-- The per-epoch shuffling phase of `DictFact.fit` (source lines 83-91):
draw a permutation of the rows, permute `X`, permute the per-row caches in
the `"average"` modes (the source reads the attributes `self.G_average` and
`self.Dx_average` here), permute `code_` alongside `Dx_average`, and permute
the per-row visit counters.  The epoch then delegates the permuted `X` to
partial-fit (line 93), which is outside this phase. -/
def fit_epoch_shuffle {n k f : ℕ} (X : Matrix (Fin n) (Fin f) ℚ)
    (s : DictFact n k f) (perm : Equiv.Perm (Fin n)) :
    Except String (Matrix (Fin n) (Fin f) ℚ × DictFact n k f) :=
  let X1 : Matrix (Fin n) (Fin f) ℚ := fun i => X (perm i)
  let step1 : Except String (DictFact n k f) :=
    if s.cfg.G_agg = "average" then
      match s.G_average with
      | none => Except.error "AttributeError: G_average"
      | some g => Except.ok { s with G_average := some (fun i => g (perm i)) }
    else Except.ok s
  match step1 with
  | Except.error e => Except.error e
  | Except.ok s1 =>
    let step2 : Except String (DictFact n k f) :=
      if s1.cfg.Dx_agg = "average" then
        match s1.Dx_average with
        | none => Except.error "AttributeError: Dx_average"
        | some d => Except.ok { s1 with
            Dx_average := some (fun i => d (perm i))
            code_ := fun i => s1.code_ (perm i) }
      else Except.ok s1
    match step2 with
    | Except.error e => Except.error e
    | Except.ok s2 =>
      Except.ok (X1, { s2 with sample_n_iter_ := fun i => s2.sample_n_iter_ (perm i) })

/-- The verbose-progress check opening `_single_batch_fit` (source lines
224-228): read `self.verbose_iter_` (an `AttributeError` when the attribute
was never assigned), and when it is a non-empty list whose head has been
passed by `n_iter_`, consume the head.  The `print`/callback side effects
are not modelled.  Returns the resulting value of `verbose_iter_`. -/
def verbose_check (vi : Option (List ℚ)) (n_iter_ : ℕ) :
    Except String (List ℚ) :=
  match vi with
  | none => Except.error "AttributeError: verbose_iter_"
  | some [] => Except.ok []
  | some (h :: t) =>
    if h ≤ (n_iter_ : ℚ) then Except.ok t else Except.ok (h :: t)

/-- NumPy fancy-indexed assignment `v[idx] = vals`: buffered writes applied
in index order, so with duplicate indices the last write wins. -/
def fancy_scatter {n b : ℕ} {α : Type} (v : Fin n → α) (idx : Fin b → Fin n)
    (vals : Fin b → α) : Fin n → α :=
  (List.finRange b).foldl (fun acc j => fun i => if i = idx j then vals j else acc i) v

/-- `DictFact._update_B` (source lines 275-278):
`B *= 1−w; B += w·codeᵀX/batch_size`. -/
def update_B {k f b : ℕ} (B : Matrix (Fin k) (Fin f) ℚ)
    (X : Matrix (Fin b) (Fin f) ℚ) (code : Matrix (Fin b) (Fin k) ℚ)
    (w : ℚ) : Matrix (Fin k) (Fin f) ℚ :=
  let B1 : Matrix (Fin k) (Fin f) ℚ := (1 - w) • B
  B1 + (w / (b : ℚ)) • (codeᵀ * X)

/-- `DictFact._update_C` (source lines 280-283):
`C *= 1−w; C += w·codeᵀcode/batch_size`. -/
def update_C {k b : ℕ} (C : Matrix (Fin k) (Fin k) ℚ)
    (code : Matrix (Fin b) (Fin k) ℚ) (w : ℚ) : Matrix (Fin k) (Fin k) ℚ :=
  let C1 : Matrix (Fin k) (Fin k) ℚ := (1 - w) • C
  C1 + (w / (b : ℚ)) • (codeᵀ * code)

/-- `DictFact._compute_code` (source lines 285-354), single-threaded
branches (the thread fan-out at lines 308-317 and 332-345 computes the same
row blocks; concurrency itself is outside the embedding).  Mirrors the
source control flow: the `Dx` branch with its optional per-row average cache
update, the Gram branch — note that line 326 (`G = self.G_average_[...]`)
sits at the indentation of `if self.G_agg != 'full':`, so it executes for the
`"masked"` mode as well, where the cache attribute does not exist — and the
dispatch to the multi- or single-Gram solver, writing the solved codes back
into `code_` for exactly the batch rows. -/
def compute_code {n k f b sN : ℕ} (s : DictFact n k f)
    (X : Matrix (Fin b) (Fin f) ℚ) (sample_indices : Fin b → Fin n)
    (w_sample : Fin b → ℚ) (subset : Fin sN → Fin f) :
    Except String (DictFact n k f) :=
  let components_subset : Matrix (Fin k) (Fin sN) ℚ :=
    fun i t => s.components_ i (subset t)
  let dxStep : Except String ((Fin b → Fin k → ℚ) × DictFact n k f) :=
    if s.cfg.Dx_agg = "full" then Except.ok (X * s.components_ᵀ, s)
    else
      let X_subset : Matrix (Fin b) (Fin sN) ℚ := fun j t => X j (subset t)
      let Dx0 : Matrix (Fin b) (Fin k) ℚ :=
        s.cfg.reduction • (X_subset * components_subsetᵀ)
      if s.cfg.Dx_agg = "average" then
        match s.Dx_average_ with
        | none => Except.error "AttributeError: Dx_average_"
        | some dxa =>
          let dxa1 := fancy_scatter dxa sample_indices
            (fun j => fun t => (1 - w_sample j) * dxa (sample_indices j) t)
          let dxa2 := fancy_scatter dxa1 sample_indices
            (fun j => fun t => dxa1 (sample_indices j) t + w_sample j * Dx0 j t)
          Except.ok (fun j => dxa2 (sample_indices j),
                     { s with Dx_average_ := some dxa2 })
      else Except.ok (Dx0, s)
  match dxStep with
  | Except.error e => Except.error e
  | Except.ok (Dx, s1) =>
    if s1.cfg.G_agg ≠ "full" then
      let G0 : Matrix (Fin k) (Fin k) ℚ :=
        s1.cfg.reduction • (components_subset * components_subsetᵀ)
      let gStep : Except String (DictFact n k f) :=
        if s1.cfg.G_agg = "average" then
          match s1.G_average_ with
          | none => Except.error "AttributeError: G_average_"
          | some ga =>
            let ga1 := fancy_scatter ga sample_indices
              (fun j => (1 - w_sample j) • ga (sample_indices j))
            let ga2 := fancy_scatter ga1 sample_indices
              (fun j => ga1 (sample_indices j) + w_sample j • G0)
            Except.ok { s1 with G_average_ := some ga2 }
        else Except.ok s1
      match gStep with
      | Except.error e => Except.error e
      | Except.ok s2 =>
        match s2.G_average_ with
        | none => Except.error "AttributeError: G_average_"
        | some ga =>
          let G3 : Fin b → Matrix (Fin k) (Fin k) ℚ :=
            fun j => ga (sample_indices j)
          let code0 : Fin b → Fin k → ℚ := fun j => s2.code_ (sample_indices j)
          if s2.cfg.G_agg = "average" then
            let code1 := (enet_regression_multi_gram G3 Dx X code0
              s2.cfg.code_l1r s2.cfg.code_alpha s2.cfg.code_pos).2
            Except.ok { s2 with
              code_ := fancy_scatter s2.code_ sample_indices code1 }
          else
            Except.error "ValueError: stacked Gram passed to the single-Gram solver"
    else
      match s1.G_ with
      | none => Except.error "AttributeError: G_"
      | some g =>
        let code0 : Matrix (Fin b) (Fin k) ℚ := fun j => s1.code_ (sample_indices j)
        let code1 := (enet_regression_single_gram g Dx X code0
          s1.cfg.code_l1r s1.cfg.code_alpha s1.cfg.code_pos).2
        Except.ok { s1 with
          code_ := fancy_scatter s1.code_ sample_indices (fun j => code1 j) }

/-- `_update_dict` at the level of the engine object: read `self.G_` (an
`AttributeError` in `"full"` mode when it was never assigned; in the other
modes the Gram argument is never used by `update_dict`, a zero placeholder
is passed and the stored `G_` is kept), run the core update, and store
`components_`, `comp_norm_` and (in `"full"` mode) `G_`. -/
def update_dict_state {n k f sN : ℕ} (s : DictFact n k f)
    (subset : Fin sN → Fin f) (order : List (Fin k)) :
    Except String (DictFact n k f) :=
  if s.cfg.G_agg = "full" then
    match s.G_ with
    | none => Except.error "AttributeError: G_"
    | some g =>
      let r := update_dict "full" s.cfg.comp_pos s.cfg.comp_l1r s.C_
        subset order s.components_ s.gradient_ s.comp_norm_ g
      Except.ok { s with components_ := r.components_,
                         comp_norm_ := r.comp_norm_, G_ := some r.G_ }
  else
    let r := update_dict s.cfg.G_agg s.cfg.comp_pos s.cfg.comp_l1r s.C_
      subset order s.components_ s.gradient_ s.comp_norm_ 0
    Except.ok { s with components_ := r.components_,
                       comp_norm_ := r.comp_norm_ }

/-- `DictFact._update_stat_and_dict` (source lines 250-254), the
single-threaded statistics-and-dictionary phase: update `C_`, update `B_`,
refresh the gradient staging area on the subset columns from `B_`, and run
the dictionary update. -/
def update_stat_and_dict {n k f b sN : ℕ} (s : DictFact n k f)
    (subset : Fin sN → Fin f) (X : Matrix (Fin b) (Fin f) ℚ)
    (code : Matrix (Fin b) (Fin k) ℚ) (w : ℚ) (order : List (Fin k)) :
    Except String (DictFact n k f) :=
  let s1 := { s with C_ := update_C s.C_ code w }
  let s2 := { s1 with B_ := update_B s1.B_ X code w }
  let s3 := { s2 with gradient_ := fun i j =>
    if (Fin.find fun t => subset t = j).isSome then s2.B_ i j else s2.gradient_ i j }
  update_dict_state s3 subset order

/-- `DictFact._single_batch_fit` (source lines 223-248), single-threaded
path.  The externally produced per-batch quantities enter as parameters: the
sampled feature subset (`self.feature_sampler_.yield_subset`), the function
`wpow` standing for `np.power(·, -sample_learning_rate)`, the step-size
schedule `bw` standing for `batch_weight(·, ·, learning_rate, 0)` from the
compiled `dict_fact_fast` module, and the random sweep order drawn inside
`_update_dict`.  The first action is the verbose-progress check. -/
def single_batch_fit {n k f b sN : ℕ} (s : DictFact n k f)
    (X : Matrix (Fin b) (Fin f) ℚ) (sample_indices : Fin b → Fin n)
    (subset : Fin sN → Fin f) (wpow : ℕ → ℚ) (bw : ℕ → ℕ → ℚ)
    (order : List (Fin k)) : Except String (DictFact n k f) :=
  match verbose_check s.verbose_iter_ s.n_iter_ with
  | Except.error e => Except.error e
  | Except.ok vi =>
    let s0 := { s with verbose_iter_ := some vi }
    let n_iter1 := s0.n_iter_ + b
    let sni1 := fancy_scatter s0.sample_n_iter_ sample_indices
      (fun j => s0.sample_n_iter_ (sample_indices j) + 1)
    let w_sample : Fin b → ℚ := fun j => wpow (sni1 (sample_indices j))
    let w := bw n_iter1 b
    let s1 := { s0 with n_iter_ := n_iter1, sample_n_iter_ := sni1 }
    match compute_code s1 X sample_indices w_sample subset with
    | Except.error e => Except.error e
    | Except.ok s2 =>
      let this_code : Matrix (Fin b) (Fin k) ℚ :=
        fun j => s2.code_ (sample_indices j)
      update_stat_and_dict s2 subset X this_code w order

/-- `DictFact.transform` (source lines 189-212), single-threaded path (the
thread fan-out at lines 199-207 computes the same row blocks).  Compute the
Gram matrix of the frozen dictionary (reusing `self.G_` in `"full"` mode),
the cross products, a fresh all-ones code matrix, and run the shared-Gram
solver.  The method assigns no attribute of `self`; its only output is the
local code matrix, so the state component of the result is the input state
passed through each step unchanged. -/
def transform {n k f m : ℕ} (s : DictFact n k f)
    (X : Matrix (Fin m) (Fin f) ℚ) :
    Except String (Matrix (Fin m) (Fin k) ℚ × DictFact n k f) :=
  let run : Matrix (Fin k) (Fin k) ℚ → Matrix (Fin m) (Fin k) ℚ := fun G =>
    let Dx : Matrix (Fin m) (Fin k) ℚ := X * s.components_ᵀ
    let code : Matrix (Fin m) (Fin k) ℚ := fun _ _ => 1
    (enet_regression_single_gram G Dx X code s.cfg.code_l1r
      s.cfg.code_alpha s.cfg.code_pos).2
  if s.cfg.G_agg ≠ "full" then
    Except.ok (run (s.components_ * s.components_ᵀ), s)
  else
    match s.G_ with
    | none => Except.error "AttributeError: G_"
    | some g => Except.ok (run g, s)

/-- `DictFact.score` (source lines 214-221): infer codes with `transform`,
then return the mean per-row penalized reconstruction loss.  All attribute
reads happen on the state left by `transform`. -/
def score {n k f m : ℕ} (s : DictFact n k f) (X : Matrix (Fin m) (Fin f) ℚ) :
    Except String (ℚ × DictFact n k f) :=
  match transform s X with
  | Except.error e => Except.error e
  | Except.ok (code, s1) =>
    let loss := (∑ i, ∑ j, (X i j - (code * s1.components_) i j) ^ 2) / 2
    let norm1_code := ∑ i, ∑ t, |code i t|
    let norm2_code := ∑ i, ∑ t, (code i t) ^ 2
    let regul := s1.cfg.code_alpha * (norm1_code * s1.cfg.code_l1r
      + (1 - s1.cfg.code_l1r) * norm2_code / 2)
    Except.ok ((loss + regul) / (m : ℚ), s1)

/-! Supporting lemmas about the elastic-net primitives, the column
gather/scatter pair, and the shape of `update_dict`. -/

/-- The per-coordinate summand of the elastic-net norm. -/
def enet_term (l1r x : ℚ) : ℚ := l1r * |x| + (1 - l1r) * x ^ 2 / 2

lemma enet_norm_fast_eq_sum {s : ℕ} (v : Fin s → ℚ) (l1r : ℚ) :
    enet_norm_fast v l1r = ∑ t, enet_term l1r (v t) := rfl

lemma enet_term_nonneg {l1r : ℚ} (h0 : 0 ≤ l1r) (h1 : l1r ≤ 1) (x : ℚ) :
    0 ≤ enet_term l1r x := by
  have hx : (0 : ℚ) ≤ |x| := abs_nonneg x
  have hsq : (0 : ℚ) ≤ x ^ 2 := sq_nonneg x
  have h2 : (0 : ℚ) ≤ 1 - l1r := by linarith
  unfold enet_term
  positivity

lemma enet_norm_fast_nonneg {s : ℕ} (v : Fin s → ℚ) {l1r : ℚ}
    (h0 : 0 ≤ l1r) (h1 : l1r ≤ 1) : 0 ≤ enet_norm_fast v l1r := by
  rw [enet_norm_fast_eq_sum]
  exact Finset.sum_nonneg fun t _ => enet_term_nonneg h0 h1 (v t)

/-- Contract fact for the projection model: the result lies in the
elastic-net ball of radius `max radius 0`. -/
lemma enet_projection_norm_le {s : ℕ} (v : Fin s → ℚ) (radius : ℚ)
    {l1r : ℚ} (h0 : 0 ≤ l1r) (h1 : l1r ≤ 1) :
    enet_norm_fast (enet_projection_fast v radius l1r) l1r ≤ max radius 0 := by
  unfold enet_projection_fast
  split_ifs with hin hneg
  · exact hin
  · have : enet_norm_fast (fun _ : Fin s => (0 : ℚ)) l1r = 0 := by
      simp [enet_norm_fast]
    rw [this]
    exact le_max_right radius 0
  · have hrad : 0 < radius := not_le.mp hneg
    have hmax : max radius 0 = radius := max_eq_left hrad.le
    have hn : radius < enet_norm_fast v l1r := by
      have := not_le.mp hin; rwa [hmax] at this
    have hn0 : 0 < enet_norm_fast v l1r := lt_trans hrad hn
    set nv := enet_norm_fast v l1r with hnv
    have hc0 : 0 < radius / nv := div_pos hrad hn0
    have hc1 : radius / nv ≤ 1 := (div_le_one hn0).mpr hn.le
    have hterm : ∀ t : Fin s,
        l1r * |radius / nv * v t| + (1 - l1r) * (radius / nv * v t) ^ 2 / 2
          ≤ radius / nv * (l1r * |v t| + (1 - l1r) * (v t) ^ 2 / 2) := by
      intro t
      have habs : |radius / nv * v t| = radius / nv * |v t| := by
        rw [abs_mul, abs_of_pos hc0]
      rw [habs, mul_pow]
      have h2 : (0 : ℚ) ≤ 1 - l1r := by linarith
      have hsq : (0 : ℚ) ≤ (v t) ^ 2 := sq_nonneg _
      have hcc : (radius / nv) ^ 2 ≤ radius / nv := by nlinarith
      nlinarith [mul_le_mul_of_nonneg_right hcc (mul_nonneg h2 hsq)]
    have hsum : enet_norm_fast (fun t => radius / nv * v t) l1r
        ≤ radius / nv * nv := by
      calc enet_norm_fast (fun t => radius / nv * v t) l1r
          ≤ ∑ t, radius / nv * (l1r * |v t| + (1 - l1r) * (v t) ^ 2 / 2) :=
            Finset.sum_le_sum fun t _ => hterm t
        _ = radius / nv * nv := by rw [← Finset.mul_sum]; rfl
    rw [hmax]
    calc enet_norm_fast (fun t => radius / nv * v t) l1r
        ≤ radius / nv * nv := hsum
      _ = radius := div_mul_cancel₀ radius hn0.ne'

/-- Contract fact for the projection model: it is the identity on vectors
already inside the ball. -/
lemma enet_projection_of_le {s : ℕ} (v : Fin s → ℚ) (radius l1r : ℚ)
    (h : enet_norm_fast v l1r ≤ max radius 0) :
    enet_projection_fast v radius l1r = v := by
  unfold enet_projection_fast
  rw [if_pos h]

/-- Clipping negatives to zero cannot increase the elastic-net norm. -/
lemma enet_norm_clip_le {s : ℕ} (v : Fin s → ℚ) {l1r : ℚ}
    (h0 : 0 ≤ l1r) (h1 : l1r ≤ 1) :
    enet_norm_fast (fun t => if v t < 0 then 0 else v t) l1r
      ≤ enet_norm_fast v l1r := by
  refine Finset.sum_le_sum fun t _ => ?_
  by_cases hv : v t < 0
  · simp only [hv, if_true]
    have : l1r * |(0 : ℚ)| + (1 - l1r) * (0 : ℚ) ^ 2 / 2 = 0 := by norm_num
    rw [this]
    exact enet_term_nonneg h0 h1 (v t)
  · simp [hv]

lemma find_subset_self {f s : ℕ} {subset : Fin s → Fin f}
    (hinj : Function.Injective subset) (t : Fin s) :
    Fin.find (fun t' => subset t' = subset t) = some t := by
  rw [Fin.find_eq_some_iff]
  exact ⟨rfl, fun j hj => le_of_eq (hinj hj).symm⟩

lemma find_subset_none {f s : ℕ} (subset : Fin s → Fin f) (c : Fin f)
    (hc : ∀ t, subset t ≠ c) :
    Fin.find (fun t => subset t = c) = none := by
  rw [Fin.find_eq_none_iff]
  exact hc

lemma scatter_columns_on {k f s : ℕ} (D : Matrix (Fin k) (Fin f) ℚ)
    {subset : Fin s → Fin f} (hinj : Function.Injective subset)
    (M : Matrix (Fin k) (Fin s) ℚ) (i : Fin k) (t : Fin s) :
    scatter_columns D subset M i (subset t) = M i t := by
  unfold scatter_columns
  rw [find_subset_self hinj t]

lemma scatter_columns_off {k f s : ℕ} (D : Matrix (Fin k) (Fin f) ℚ)
    (subset : Fin s → Fin f) (M : Matrix (Fin k) (Fin s) ℚ) (i : Fin k)
    (c : Fin f) (hc : ∀ t, subset t ≠ c) :
    scatter_columns D subset M i c = D i c := by
  unfold scatter_columns
  rw [find_subset_none subset c hc]

/-- A row whose subset entries agree with the surrounding dictionary row is
written back without change (no injectivity needed: whatever index
`Fin.find` locates satisfies the search equation). -/
lemma scatter_columns_row_of_gather {k f s : ℕ}
    (D : Matrix (Fin k) (Fin f) ℚ) (subset : Fin s → Fin f)
    (M : Matrix (Fin k) (Fin s) ℚ) (a : Fin k)
    (hM : ∀ t, M a t = D a (subset t)) (c : Fin f) :
    scatter_columns D subset M a c = D a c := by
  unfold scatter_columns
  cases hfind : Fin.find (fun t => subset t = c) with
  | none => rfl
  | some t => exact (Fin.find_eq_some_iff.mp hfind).1 ▸ hM t

lemma sum_split_subset {f s : ℕ} {subset : Fin s → Fin f}
    (hinj : Function.Injective subset) (g : Fin f → ℚ) :
    ∑ c, g c = (∑ t, g (subset t))
      + ∑ c ∈ (Finset.univ.image subset)ᶜ, g c := by
  have h1 : (∑ t, g (subset t)) = ∑ c ∈ Finset.univ.image subset, g c :=
    (Finset.sum_image fun x _ y _ h => hinj h).symm
  rw [h1, Finset.sum_add_sum_compl]

/-- Splitting the elastic-net norm of a full row into its subset part and
its out-of-subset remainder. -/
lemma enet_norm_split {f s : ℕ} {subset : Fin s → Fin f}
    (hinj : Function.Injective subset) (v : Fin f → ℚ) (l1r : ℚ) :
    enet_norm_fast v l1r = enet_norm_fast (fun t => v (subset t)) l1r
      + ∑ c ∈ (Finset.univ.image subset)ᶜ, enet_term l1r (v c) := by
  rw [enet_norm_fast_eq_sum, enet_norm_fast_eq_sum]
  exact sum_split_subset hinj fun c => enet_term l1r (v c)

/-- Shape of `update_dict`: the dictionary it returns. -/
lemma update_dict_components_eq {k f s : ℕ} (G_agg : String)
    (comp_pos : Bool) (comp_l1r : ℚ) (C : Matrix (Fin k) (Fin k) ℚ)
    (subset : Fin s → Fin f) (order : List (Fin k))
    (components gradient : Matrix (Fin k) (Fin f) ℚ)
    (comp_norm : Fin k → ℚ) (G : Matrix (Fin k) (Fin k) ℚ) :
    (update_dict G_agg comp_pos comp_l1r C subset order components gradient
      comp_norm G).components_
    = scatter_columns components subset
        (order.foldl (sweep_step comp_pos comp_l1r C)
          ⟨gather_columns components subset,
           fun i t => gather_columns gradient subset i t
             - ∑ j, C i j * gather_columns components subset j t,
           comp_norm⟩).compSub := rfl

/-- Shape of `update_dict`: the norm cache it returns. -/
lemma update_dict_comp_norm_eq {k f s : ℕ} (G_agg : String)
    (comp_pos : Bool) (comp_l1r : ℚ) (C : Matrix (Fin k) (Fin k) ℚ)
    (subset : Fin s → Fin f) (order : List (Fin k))
    (components gradient : Matrix (Fin k) (Fin f) ℚ)
    (comp_norm : Fin k → ℚ) (G : Matrix (Fin k) (Fin k) ℚ) :
    (update_dict G_agg comp_pos comp_l1r C subset order components gradient
      comp_norm G).comp_norm_
    = (order.foldl (sweep_step comp_pos comp_l1r C)
        ⟨gather_columns components subset,
         fun i t => gather_columns gradient subset i t
           - ∑ j, C i j * gather_columns components subset j t,
         comp_norm⟩).comp_norm := rfl

/-! Evaluation lemmas for one sweep iteration, and the norm-cache
invariant carried through the whole sweep. -/

lemma sweep_step_comp_norm_ne {k s : ℕ} (comp_pos : Bool) (comp_l1r : ℚ)
    (C : Matrix (Fin k) (Fin k) ℚ) (st : SweepState k s) {a j : Fin k}
    (hj : j ≠ a) :
    (sweep_step comp_pos comp_l1r C st a).comp_norm j = st.comp_norm j := by
  simp [sweep_step, hj]

lemma sweep_step_compSub_ne {k s : ℕ} (comp_pos : Bool) (comp_l1r : ℚ)
    (C : Matrix (Fin k) (Fin k) ℚ) (st : SweepState k s) {a j : Fin k}
    (hj : j ≠ a) :
    (sweep_step comp_pos comp_l1r C st a).compSub j
      = sweep_mid comp_pos C st a j := by
  funext t
  simp [sweep_step, hj]

lemma sweep_step_compSub_self {k s : ℕ} (comp_pos : Bool) (comp_l1r : ℚ)
    (C : Matrix (Fin k) (Fin k) ℚ) (st : SweepState k s) (a : Fin k) :
    (sweep_step comp_pos comp_l1r C st a).compSub a
      = enet_projection_fast (sweep_mid comp_pos C st a a)
          (st.comp_norm a + enet_norm_fast (st.compSub a) comp_l1r)
          comp_l1r := by
  funext t
  simp [sweep_step]

lemma sweep_step_comp_norm_self {k s : ℕ} (comp_pos : Bool) (comp_l1r : ℚ)
    (C : Matrix (Fin k) (Fin k) ℚ) (st : SweepState k s) (a : Fin k) :
    (sweep_step comp_pos comp_l1r C st a).comp_norm a
      = st.comp_norm a + enet_norm_fast (st.compSub a) comp_l1r
        - enet_norm_fast ((sweep_step comp_pos comp_l1r C st a).compSub a)
            comp_l1r := by
  simp [sweep_step]

lemma sweep_mid_ne {k s : ℕ} (comp_pos : Bool)
    (C : Matrix (Fin k) (Fin k) ℚ) (st : SweepState k s) {a j : Fin k}
    (hj : j ≠ a) :
    sweep_mid comp_pos C st a j
      = if comp_pos then (fun t => if st.compSub j t < 0 then 0 else st.compSub j t)
        else st.compSub j := by
  cases hcp : comp_pos <;> funext t <;>
    simp only [sweep_mid, clip_negative, hcp, if_true, if_false, Bool.false_eq_true] <;>
    split_ifs <;> simp_all [hj]

lemma sweep_mid_norm_ne_le {k s : ℕ} (comp_pos : Bool) {comp_l1r : ℚ}
    (h0 : 0 ≤ comp_l1r) (h1 : comp_l1r ≤ 1)
    (C : Matrix (Fin k) (Fin k) ℚ) (st : SweepState k s) {a j : Fin k}
    (hj : j ≠ a) :
    enet_norm_fast (sweep_mid comp_pos C st a j) comp_l1r
      ≤ enet_norm_fast (st.compSub j) comp_l1r := by
  rw [sweep_mid_ne comp_pos C st hj]
  cases comp_pos
  · simp
  · simpa using enet_norm_clip_le (st.compSub j) h0 h1

/-- A degenerate atom (`C[a,a] ≤ 1e-20`) passes through the guarded update
and the clip unchanged, provided its entries are non-negative whenever the
clip is active. -/
lemma sweep_mid_self_of_degenerate {k s : ℕ} (comp_pos : Bool)
    (C : Matrix (Fin k) (Fin k) ℚ) (st : SweepState k s) (a : Fin k)
    (hC : ¬ (1 / 10 ^ 20 < C a a))
    (hpos : comp_pos = true → ∀ t, 0 ≤ st.compSub a t) :
    sweep_mid comp_pos C st a a = st.compSub a := by
  simp only [sweep_mid]
  rw [if_neg hC]
  cases hcp : comp_pos
  · rw [if_neg (by simp)]
  · rw [if_pos rfl]
    funext t
    simp only [clip_negative]
    exact if_neg (not_lt.mpr (hpos hcp t))

/-- The norm-cache invariant preserved by every sweep iteration: each
cache entry is non-negative, and cache entry plus out-of-subset norm mass
plus current subset norm stays within the unit budget. -/
lemma sweep_step_preserves_inv {k s : ℕ} (comp_pos : Bool) {comp_l1r : ℚ}
    (h0 : 0 ≤ comp_l1r) (h1 : comp_l1r ≤ 1)
    (C : Matrix (Fin k) (Fin k) ℚ) (outN : Fin k → ℚ)
    (st : SweepState k s) (a : Fin k)
    (hinv : ∀ j, 0 ≤ st.comp_norm j ∧
      st.comp_norm j + outN j + enet_norm_fast (st.compSub j) comp_l1r ≤ 1) :
    ∀ j, 0 ≤ (sweep_step comp_pos comp_l1r C st a).comp_norm j ∧
      (sweep_step comp_pos comp_l1r C st a).comp_norm j + outN j
        + enet_norm_fast ((sweep_step comp_pos comp_l1r C st a).compSub j)
            comp_l1r ≤ 1 := by
  intro j
  by_cases hj : j = a
  · subst hj
    obtain ⟨hcn, hle⟩ := hinv j
    have hnu : 0 ≤ enet_norm_fast (st.compSub j) comp_l1r :=
      enet_norm_fast_nonneg _ h0 h1
    have hR : 0 ≤ st.comp_norm j + enet_norm_fast (st.compSub j) comp_l1r := by
      linarith
    have hproj : enet_norm_fast
        ((sweep_step comp_pos comp_l1r C st j).compSub j) comp_l1r
        ≤ st.comp_norm j + enet_norm_fast (st.compSub j) comp_l1r := by
      rw [sweep_step_compSub_self]
      calc enet_norm_fast (enet_projection_fast (sweep_mid comp_pos C st j j)
              (st.comp_norm j + enet_norm_fast (st.compSub j) comp_l1r)
              comp_l1r) comp_l1r
          ≤ max (st.comp_norm j + enet_norm_fast (st.compSub j) comp_l1r) 0 :=
            enet_projection_norm_le _ _ h0 h1
        _ = st.comp_norm j + enet_norm_fast (st.compSub j) comp_l1r :=
            max_eq_left hR
    rw [sweep_step_comp_norm_self]
    constructor
    · linarith
    · linarith
  · obtain ⟨hcn, hle⟩ := hinv j
    rw [sweep_step_comp_norm_ne comp_pos comp_l1r C st hj,
        sweep_step_compSub_ne comp_pos comp_l1r C st hj]
    have := sweep_mid_norm_ne_le comp_pos h0 h1 C st hj
    exact ⟨hcn, by linarith⟩

lemma sweep_foldl_preserves_inv {k s : ℕ} (comp_pos : Bool) {comp_l1r : ℚ}
    (h0 : 0 ≤ comp_l1r) (h1 : comp_l1r ≤ 1)
    (C : Matrix (Fin k) (Fin k) ℚ) (outN : Fin k → ℚ)
    (order : List (Fin k)) (st : SweepState k s)
    (hinv : ∀ j, 0 ≤ st.comp_norm j ∧
      st.comp_norm j + outN j + enet_norm_fast (st.compSub j) comp_l1r ≤ 1) :
    ∀ j, 0 ≤ (order.foldl (sweep_step comp_pos comp_l1r C) st).comp_norm j ∧
      (order.foldl (sweep_step comp_pos comp_l1r C) st).comp_norm j + outN j
        + enet_norm_fast
            ((order.foldl (sweep_step comp_pos comp_l1r C) st).compSub j)
            comp_l1r ≤ 1 := by
  induction order generalizing st with
  | nil => exact hinv
  | cons a rest ih =>
    exact ih _ (sweep_step_preserves_inv comp_pos h0 h1 C outN st a hinv)

/-- A degenerate atom's row and cache entry pass through the whole sweep
unchanged. -/
lemma sweep_foldl_keeps_degenerate_row {k s : ℕ} (comp_pos : Bool)
    {comp_l1r : ℚ} (h0 : 0 ≤ comp_l1r) (h1 : comp_l1r ≤ 1)
    (C : Matrix (Fin k) (Fin k) ℚ) {a : Fin k}
    (hC : ¬ (1 / 10 ^ 20 < C a a)) (v0 : Fin s → ℚ) (c0 : ℚ)
    (hpos : comp_pos = true → ∀ t, 0 ≤ v0 t) (hc0 : 0 ≤ c0)
    (order : List (Fin k)) (st : SweepState k s)
    (hst : st.compSub a = v0 ∧ st.comp_norm a = c0) :
    (order.foldl (sweep_step comp_pos comp_l1r C) st).compSub a = v0 ∧
    (order.foldl (sweep_step comp_pos comp_l1r C) st).comp_norm a = c0 := by
  induction order generalizing st with
  | nil => exact hst
  | cons b rest ih =>
    refine ih _ ?_
    obtain ⟨hrow, hcn⟩ := hst
    by_cases hb : a = b
    · subst hb
      have hmid : sweep_mid comp_pos C st a a = v0 := by
        rw [sweep_mid_self_of_degenerate comp_pos C st a hC
          (fun h t => hrow ▸ hpos h t), hrow]
      have hnu : 0 ≤ enet_norm_fast (st.compSub a) comp_l1r :=
        enet_norm_fast_nonneg _ h0 h1
      have hproj : (sweep_step comp_pos comp_l1r C st a).compSub a = v0 := by
        rw [sweep_step_compSub_self, hmid, hrow]
        refine enet_projection_of_le _ _ _ ?_
        rw [hcn]
        have : enet_norm_fast v0 comp_l1r
            ≤ c0 + enet_norm_fast v0 comp_l1r := by linarith
        exact le_max_of_le_left this
      refine ⟨hproj, ?_⟩
      rw [sweep_step_comp_norm_self, hproj, hrow, hcn]
      ring
    · have hj : a ≠ b := hb
      constructor
      · rw [sweep_step_compSub_ne comp_pos comp_l1r C st hj,
            sweep_mid_ne comp_pos C st hj, hrow]
        cases hcp : comp_pos
        · rw [if_neg (by simp)]
        · rw [if_pos rfl]
          funext t
          exact if_neg (not_lt.mpr (hpos hcp t))
      · rw [sweep_step_comp_norm_ne comp_pos comp_l1r C st hj, hcn]

/-- Writing updated subset columns back changes `D·Dᵀ` by removing the old
subset block's contribution and adding the new one's. -/
lemma scatter_mul_transpose {k f s : ℕ} (D : Matrix (Fin k) (Fin f) ℚ)
    {subset : Fin s → Fin f} (hinj : Function.Injective subset)
    (M : Matrix (Fin k) (Fin s) ℚ) :
    scatter_columns D subset M * (scatter_columns D subset M)ᵀ
      = D * Dᵀ - gather_columns D subset * (gather_columns D subset)ᵀ
        + M * Mᵀ := by
  funext i j
  simp only [Matrix.mul_apply, Matrix.sub_apply, Matrix.add_apply,
    Matrix.transpose_apply, gather_columns]
  rw [sum_split_subset hinj
      (fun c => scatter_columns D subset M i c * scatter_columns D subset M j c),
    sum_split_subset hinj (fun c => D i c * D j c)]
  have hon : ∀ t : Fin s,
      scatter_columns D subset M i (subset t)
        * scatter_columns D subset M j (subset t) = M i t * M j t := fun t => by
    rw [scatter_columns_on D hinj M i t, scatter_columns_on D hinj M j t]
  have hoff : ∑ c ∈ (Finset.univ.image subset)ᶜ,
      scatter_columns D subset M i c * scatter_columns D subset M j c
      = ∑ c ∈ (Finset.univ.image subset)ᶜ, D i c * D j c := by
    refine Finset.sum_congr rfl fun c hc => ?_
    have hcc : ∀ t, subset t ≠ c := fun t ht =>
      (Finset.mem_compl.mp hc) (Finset.mem_image.mpr ⟨t, Finset.mem_univ t, ht⟩)
    rw [scatter_columns_off D subset M i c hcc,
        scatter_columns_off D subset M j c hcc]
  rw [Finset.sum_congr rfl fun t _ => hon t, hoff]
  ring

/-- C3: for every batch and every configuration — including `reduction > 1`,
where the active subset is a strict subset of the features — after the
dictionary update completes, every atom of `components_` has elastic-net
norm at most 1 (exact over ℚ, hence at most `1 + ε` for any tolerance
`ε ≥ 0`), the atom's out-of-subset norm mass being accounted for through the
`comp_norm_` cache value passed to the projection primitive.  The hypotheses
are the norm-cache invariant that `prepare` establishes (`comp_norm_ = 0`
with atoms scaled into the unit ball) and that this very update preserves. -/
theorem update_dict_atom_norms_le_one {k f s : ℕ} (G_agg : String)
    (comp_pos : Bool) {comp_l1r : ℚ} (h0 : 0 ≤ comp_l1r) (h1 : comp_l1r ≤ 1)
    (C : Matrix (Fin k) (Fin k) ℚ) {subset : Fin s → Fin f}
    (hinj : Function.Injective subset) (order : List (Fin k))
    (components gradient : Matrix (Fin k) (Fin f) ℚ)
    (comp_norm : Fin k → ℚ) (G : Matrix (Fin k) (Fin k) ℚ)
    (hinv : ∀ j, 0 ≤ comp_norm j ∧
      comp_norm j + enet_norm_fast (components j) comp_l1r ≤ 1) :
    ∀ j, enet_norm_fast
      ((update_dict G_agg comp_pos comp_l1r C subset order components
        gradient comp_norm G).components_ j) comp_l1r ≤ 1 := by
  intro j
  rw [update_dict_components_eq]
  set outN : Fin k → ℚ :=
    fun i => ∑ c ∈ (Finset.univ.image subset)ᶜ,
      enet_term comp_l1r (components i c) with houtN
  set st0 : SweepState k s :=
    ⟨gather_columns components subset,
     fun i t => gather_columns gradient subset i t
       - ∑ j', C i j' * gather_columns components subset j' t,
     comp_norm⟩ with hst0
  have hinit : ∀ i, 0 ≤ st0.comp_norm i ∧
      st0.comp_norm i + outN i + enet_norm_fast (st0.compSub i) comp_l1r ≤ 1 := by
    intro i
    obtain ⟨h1i, h2i⟩ := hinv i
    refine ⟨h1i, ?_⟩
    have hsplit := enet_norm_split hinj (components i) comp_l1r
    have hgath : enet_norm_fast (st0.compSub i) comp_l1r
        = enet_norm_fast (fun t => components i (subset t)) comp_l1r := rfl
    have hout : outN i
        = ∑ c ∈ (Finset.univ.image subset)ᶜ,
            enet_term comp_l1r (components i c) := by rw [houtN]
    rw [hgath, hout]
    linarith
  have hfin := sweep_foldl_preserves_inv comp_pos h0 h1 C outN order st0 hinit j
  have hscat : enet_norm_fast
      (scatter_columns components subset
        ((order.foldl (sweep_step comp_pos comp_l1r C) st0).compSub) j)
        comp_l1r
      = enet_norm_fast
          ((order.foldl (sweep_step comp_pos comp_l1r C) st0).compSub j)
          comp_l1r + outN j := by
    rw [enet_norm_split hinj]
    have hsub : (fun t =>
        scatter_columns components subset
          ((order.foldl (sweep_step comp_pos comp_l1r C) st0).compSub) j
          (subset t))
        = (order.foldl (sweep_step comp_pos comp_l1r C) st0).compSub j := by
      funext t
      exact scatter_columns_on components hinj _ j t
    rw [hsub]
    congr 1
    rw [houtN]
    refine Finset.sum_congr rfl fun c hc => ?_
    have hcc : ∀ t, subset t ≠ c := fun t ht =>
      (Finset.mem_compl.mp hc) (Finset.mem_image.mpr ⟨t, Finset.mem_univ t, ht⟩)
    rw [scatter_columns_off components subset _ j c hcc]
  rw [hscat]
  have hnn := enet_norm_fast_nonneg
    ((order.foldl (sweep_step comp_pos comp_l1r C) st0).compSub j) h0 h1
  linarith [hfin.1, hfin.2]

/-- C4: with `"full"` Gram aggregation the invariant
`G_ = components_·components_ᵀ` is restored — exactly, over ℚ — by every
dictionary update: on a subset smaller than half the features the old subset
block's contribution is subtracted and the new one's added back; otherwise
the Gram matrix is fully recomputed from the written-back dictionary. -/
theorem update_dict_full_gram_invariant {k f s : ℕ} (comp_pos : Bool)
    (comp_l1r : ℚ) (C G : Matrix (Fin k) (Fin k) ℚ)
    {subset : Fin s → Fin f} (hinj : Function.Injective subset)
    (order : List (Fin k)) (components gradient : Matrix (Fin k) (Fin f) ℚ)
    (comp_norm : Fin k → ℚ)
    (hG : G = components * componentsᵀ) :
    (update_dict "full" comp_pos comp_l1r C subset order components gradient
      comp_norm G).G_
    = (update_dict "full" comp_pos comp_l1r C subset order components
        gradient comp_norm G).components_ *
      ((update_dict "full" comp_pos comp_l1r C subset order components
        gradient comp_norm G).components_)ᵀ := by
  by_cases hs : (s : ℚ) < (f : ℚ) / 2
  · have hGe : (update_dict "full" comp_pos comp_l1r C subset order
        components gradient comp_norm G).G_
        = G - gather_columns components subset
            * (gather_columns components subset)ᵀ
          + (order.foldl (sweep_step comp_pos comp_l1r C)
              ⟨gather_columns components subset,
               fun i t => gather_columns gradient subset i t
                 - ∑ j', C i j' * gather_columns components subset j' t,
               comp_norm⟩).compSub
            * ((order.foldl (sweep_step comp_pos comp_l1r C)
              ⟨gather_columns components subset,
               fun i t => gather_columns gradient subset i t
                 - ∑ j', C i j' * gather_columns components subset j' t,
               comp_norm⟩).compSub)ᵀ := by
      simp only [update_dict, true_and, if_true]
      simp only [if_pos hs]
    rw [hGe, update_dict_components_eq, hG, scatter_mul_transpose components hinj]
  · have hGe : (update_dict "full" comp_pos comp_l1r C subset order
        components gradient comp_norm G).G_
        = (update_dict "full" comp_pos comp_l1r C subset order components
            gradient comp_norm G).components_ *
          ((update_dict "full" comp_pos comp_l1r C subset order components
            gradient comp_norm G).components_)ᵀ := by
      simp only [update_dict, true_and, if_true]
      simp only [if_neg hs]
    exact hGe

/-- C5: during a dictionary update, an atom `a` whose self second-moment
`C[a,a]` is at most the numerical floor `1e-20` is left entirely unchanged
for this batch: every entry of its `components_` row — in particular every
entry on the active subset — is returned exactly as it was, silently and
deterministically (the update is a total function; no error value exists).
The hypotheses are the maintained invariants: the atom's norm-cache entry is
non-negative, and under `comp_pos` the atom's subset entries are
non-negative. -/
theorem update_dict_degenerate_atom_unchanged {k f s : ℕ} (G_agg : String)
    (comp_pos : Bool) {comp_l1r : ℚ} (h0 : 0 ≤ comp_l1r) (h1 : comp_l1r ≤ 1)
    (C : Matrix (Fin k) (Fin k) ℚ) (subset : Fin s → Fin f)
    (order : List (Fin k)) (components gradient : Matrix (Fin k) (Fin f) ℚ)
    (comp_norm : Fin k → ℚ) (G : Matrix (Fin k) (Fin k) ℚ) {a : Fin k}
    (hC : C a a ≤ 1 / 10 ^ 20) (hcn : 0 ≤ comp_norm a)
    (hpos : comp_pos = true → ∀ t, 0 ≤ components a (subset t)) :
    ∀ c, (update_dict G_agg comp_pos comp_l1r C subset order components
      gradient comp_norm G).components_ a c = components a c := by
  intro c
  rw [update_dict_components_eq]
  have hkeep := sweep_foldl_keeps_degenerate_row comp_pos h0 h1 C
    (not_lt.mpr hC) (fun t => components a (subset t)) (comp_norm a)
    hpos hcn order
    ⟨gather_columns components subset,
     fun i t => gather_columns gradient subset i t
       - ∑ j', C i j' * gather_columns components subset j' t,
     comp_norm⟩ ⟨rfl, rfl⟩
  exact scatter_columns_row_of_gather components subset _ a
    (fun t => congrFun hkeep.1 t) c

/-- C6: in the per-atom sweep with non-negativity configured, the clipping
step at atom `a` (the whole-matrix mask assignment `clip_negative`) sets
exactly the negative entries of atom `a`'s row to zero before projection and
leaves the rows of all other atoms on the active subset unchanged — the
other rows being non-negative at that point of the sweep (already-visited
rows have been clipped and projected; unvisited rows are non-negative from
the previous batch under `comp_pos`). -/
theorem clip_step_touches_only_current_atom {k s : ℕ} (a : Fin k)
    (M : Matrix (Fin k) (Fin s) ℚ) (h : ∀ i, i ≠ a → ∀ t, 0 ≤ M i t) :
    clip_negative M
      = Matrix.updateRow M a (fun t => if M a t < 0 then 0 else M a t) := by
  funext i t
  by_cases hi : i = a
  · subst hi
    simp [clip_negative, Matrix.updateRow_self]
  · rw [Matrix.updateRow_ne hi]
    simp only [clip_negative]
    exact if_neg (not_lt.mpr (h i hi t))

/-- C7: for every code matrix, batch `X`, and weight `w`, the statistic
updates are exactly the EWMA formulas
`C ← (1−w)·C + w·(codeᵀcode)/batch_size` and
`B ← (1−w)·B + w·(codeᵀX)/batch_size`, entrywise. -/
theorem update_stats_ewma_formulas {k f b : ℕ}
    (C : Matrix (Fin k) (Fin k) ℚ) (B : Matrix (Fin k) (Fin f) ℚ)
    (X : Matrix (Fin b) (Fin f) ℚ) (code : Matrix (Fin b) (Fin k) ℚ)
    (w : ℚ) :
    (∀ i j, update_C C code w i j
      = (1 - w) * C i j + w * (∑ t, code t i * code t j) / (b : ℚ)) ∧
    (∀ i j, update_B B X code w i j
      = (1 - w) * B i j + w * (∑ t, code t i * X t j) / (b : ℚ)) := by
  constructor <;> intro i j <;>
    simp only [update_C, update_B, Matrix.add_apply, Matrix.smul_apply,
      Matrix.mul_apply, Matrix.transpose_apply, smul_eq_mul] <;> ring

/-- C1 (code bug): when either aggregation mode is `"average"`, the epoch
shuffle of `fit` does not permute the per-row caches in lockstep — it raises.
The cache attributes assigned by `prepare` are `G_average_` and
`Dx_average_`, but source lines 87-89 read `self.G_average` and
`self.Dx_average`, names no line of the source ever assigns, so the first
epoch of `fit` stops with an `AttributeError` before delegating to
partial-fit. -/
theorem fit_epoch_average_cache_permutation_raises {n k f : ℕ} (cfg : Config)
    (h : cfg.G_agg = "average" ∨ cfg.Dx_agg = "average")
    (D_init : Matrix (Fin k) (Fin f) ℚ) (verbose_grid : List ℚ)
    (X : Matrix (Fin n) (Fin f) ℚ) (perm : Equiv.Perm (Fin n)) :
    ∃ e, fit_epoch_shuffle X (prepare cfg D_init verbose_grid) perm
      = Except.error e := by
  by_cases hg : cfg.G_agg = "average"
  · exact ⟨"AttributeError: G_average",
      by simp [fit_epoch_shuffle, prepare, hg]⟩
  · have hd : cfg.Dx_agg = "average" := h.resolve_left hg
    exact ⟨"AttributeError: Dx_average",
      by simp [fit_epoch_shuffle, prepare, hg, hd]⟩

/-- C2 (code bug): with the default `verbose = 0`, `prepare` never assigns
`verbose_iter_` (source line 181 guards the assignment with
`if self.verbose:`), yet the first statement of `_single_batch_fit` (source
line 224) reads it — so the per-batch pipeline raises an `AttributeError`
for every batch instead of completing: the verbose-progress list is defined
only when `verbose` is nonzero. -/
theorem single_batch_fit_default_verbose_raises {n k f b sN : ℕ}
    (cfg : Config) (hv : cfg.verbose = 0)
    (D_init : Matrix (Fin k) (Fin f) ℚ) (verbose_grid : List ℚ)
    (X : Matrix (Fin b) (Fin f) ℚ) (sample_indices : Fin b → Fin n)
    (subset : Fin sN → Fin f) (wpow : ℕ → ℚ) (bw : ℕ → ℕ → ℚ)
    (order : List (Fin k)) :
    single_batch_fit (prepare cfg D_init verbose_grid) X sample_indices
        subset wpow bw order
      = Except.error "AttributeError: verbose_iter_" := by
  have hnone : (prepare (n := n) cfg D_init verbose_grid).verbose_iter_
      = none := by
    simp [prepare, hv]
  simp [single_batch_fit, verbose_check, hnone]

/-- `transform` succeeds and passes the engine state through untouched
whenever the Gram attribute needed in `"full"` mode exists. -/
lemma transform_ok {n k f m : ℕ} (s : DictFact n k f)
    (X : Matrix (Fin m) (Fin f) ℚ)
    (hG : s.cfg.G_agg = "full" → s.G_.isSome) :
    ∃ code, transform s X = Except.ok (code, s) := by
  by_cases hfull : s.cfg.G_agg = "full"
  · obtain ⟨g, hg⟩ := Option.isSome_iff_exists.mp (hG hfull)
    refine ⟨(enet_regression_single_gram g (X * s.components_ᵀ) X
      (fun _ _ => 1) s.cfg.code_l1r s.cfg.code_alpha s.cfg.code_pos).2, ?_⟩
    simp [transform, hfull, hg]
  · refine ⟨(enet_regression_single_gram (s.components_ * s.components_ᵀ)
      (X * s.components_ᵀ) X (fun _ _ => 1) s.cfg.code_l1r s.cfg.code_alpha
      s.cfg.code_pos).2, ?_⟩
    simp [transform, hfull]

/-- C9: calling `transform` twice in succession on the same engine with an
unchanged dictionary yields identical code matrices, and `transform` leaves
the entire engine state — `components_`, `C_`, `B_`, `G_`, `code_`, the
counters and the per-row caches, i.e. the whole `DictFact` record —
unchanged.  The hypothesis is only that the engine was prepared consistently
(`G_` exists when `"full"` aggregation is configured). -/
theorem transform_pure_and_repeatable {n k f m : ℕ} (s : DictFact n k f)
    (X : Matrix (Fin m) (Fin f) ℚ)
    (hG : s.cfg.G_agg = "full" → s.G_.isSome) :
    ∃ code, transform s X = Except.ok (code, s) ∧
      (transform s X).bind (fun p => transform p.2 X)
        = Except.ok (code, s) := by
  obtain ⟨code, h⟩ := transform_ok s X hG
  exact ⟨code, h, by rw [h]; simpa [Except.bind] using h⟩

/-- C10: `score X` returns the mean per-row penalized reconstruction loss of
the codes inferred by `transform X` —
`(½·‖X − code·D‖² + α·(r·‖code‖₁ + (1−r)·‖code‖₂²/2)) / n` with
`α = code_alpha` and `r = code_l1_ratio` — and mutates no engine state. -/
theorem score_mean_penalized_loss {n k f m : ℕ} (s : DictFact n k f)
    (X : Matrix (Fin m) (Fin f) ℚ)
    (hG : s.cfg.G_agg = "full" → s.G_.isSome) :
    ∃ code, transform s X = Except.ok (code, s) ∧
      score s X = Except.ok
        (((∑ i, ∑ j, (X i j - ∑ t, code i t * s.components_ t j) ^ 2) / 2
          + s.cfg.code_alpha * ((∑ i, ∑ t, |code i t|) * s.cfg.code_l1r
            + (1 - s.cfg.code_l1r) * (∑ i, ∑ t, (code i t) ^ 2) / 2))
          / (m : ℚ), s) := by
  obtain ⟨code, h⟩ := transform_ok s X hG
  refine ⟨code, h, ?_⟩
  simp [score, h, Matrix.mul_apply]

lemma npSolve_fin_two (A : Matrix (Fin 2) (Fin 2) ℚ) (v : Fin 2 → ℚ) :
    npSolve A v = fun i => (A 0 0 * A 1 1 - A 0 1 * A 1 0)⁻¹ *
      (if i = 0 then A 1 1 * v 0 - A 0 1 * v 1
       else A 0 0 * v 1 - A 1 0 * v 0) := by
  funext i
  fin_cases i <;>
    simp [npSolve, Matrix.det_fin_two, Matrix.adjugate_fin_two,
      Matrix.mulVec, Matrix.dotProduct, Fin.sum_univ_two] <;>
    exact Or.inl (by ring)

/-- C8 (code bug): for the multi-Gram (`"average"`) ridge path with
`l1_ratio = 0`, the per-iteration `G.flat[::n_components+1] += alpha` is
strided over the flattened 3-d stack, so for batch rows past the first it
adds `alpha` at off-diagonal positions instead of on the row's own diagonal.
At the failing input below (batch of 2, two components, both per-row Gram
matrices the identity, `Dx` rows `(1,0)`, `alpha = 1`) row 1 is solved
against `[[1,0],[1,1]]` rather than `G₁ + αI = [[2,0],[0,2]]`: the code
returns `(1,−1)` where the claimed closed-form ridge solution is `(½, 0)`.
(The add/subtract pair does restore the stack itself exactly.) -/
theorem multi_gram_ridge_stride_bug :
    (enet_regression_multi_gram (fun _ => (1 : Matrix (Fin 2) (Fin 2) ℚ))
        (fun _ => ![1, 0]) (0 : Matrix (Fin 2) (Fin 1) ℚ) (fun _ _ => 0)
        0 1 false).2 1
      = ![1, -1] ∧
    npSolve ((fun _ => (1 : Matrix (Fin 2) (Fin 2) ℚ)) (1 : Fin 2)
        + (1 : ℚ) • (1 : Matrix (Fin 2) (Fin 2) ℚ)) ![1, 0]
      = ![1/2, 0] ∧
    (enet_regression_multi_gram (fun _ => (1 : Matrix (Fin 2) (Fin 2) ℚ))
        (fun _ => ![1, 0]) (0 : Matrix (Fin 2) (Fin 1) ℚ) (fun _ _ => 0)
        0 1 false).2 1
      ≠ npSolve ((fun _ => (1 : Matrix (Fin 2) (Fin 2) ℚ)) (1 : Fin 2)
        + (1 : ℚ) • (1 : Matrix (Fin 2) (Fin 2) ℚ)) ![1, 0] := by
  have hlist : List.finRange 2 = [0, 1] := rfl
  have hcode : (enet_regression_multi_gram
      (fun _ => (1 : Matrix (Fin 2) (Fin 2) ℚ)) (fun _ => ![1, 0])
      (0 : Matrix (Fin 2) (Fin 1) ℚ) (fun _ _ => 0) 0 1 false).2 1
      = ![1, -1] := by
    simp only [enet_regression_multi_gram, if_pos rfl, hlist, List.foldl_cons,
      List.foldl_nil]
    funext t
    fin_cases t <;>
      simp [add_flat_stride, npSolve_fin_two, Matrix.one_apply] <;>
      norm_num
  have hridge : npSolve ((fun _ => (1 : Matrix (Fin 2) (Fin 2) ℚ)) (1 : Fin 2)
      + (1 : ℚ) • (1 : Matrix (Fin 2) (Fin 2) ℚ)) ![1, 0] = ![1/2, 0] := by
    funext t
    fin_cases t <;>
      simp [npSolve_fin_two, Matrix.one_apply] <;>
      norm_num
  refine ⟨hcode, hridge, ?_⟩
  rw [hcode, hridge]
  intro hcontra
  have := congrFun hcontra 1
  simp at this

/-! Witnesses: each theorem with a hypothesis applied at a concrete
satisfiable input. -/

theorem fit_epoch_average_cache_permutation_raises_witness :
    (⟨1, 1, 76/100, "masked", "average", 1, 1, 0, false, false, 10, 1,
        0⟩ : Config).G_agg = "average" ∧
    ∃ e, fit_epoch_shuffle (0 : Matrix (Fin 1) (Fin 1) ℚ)
        (prepare ⟨1, 1, 76/100, "masked", "average", 1, 1, 0, false, false,
          10, 1, 0⟩ (0 : Matrix (Fin 1) (Fin 1) ℚ) [])
        (Equiv.refl (Fin 1))
      = Except.error e :=
  ⟨rfl, fit_epoch_average_cache_permutation_raises _ (Or.inl rfl) _ _ _ _⟩

theorem single_batch_fit_default_verbose_raises_witness :
    (⟨1, 1, 76/100, "masked", "masked", 1, 1, 0, false, false, 10, 1,
        0⟩ : Config).verbose = 0 ∧
    single_batch_fit
        (prepare ⟨1, 1, 76/100, "masked", "masked", 1, 1, 0, false, false,
          10, 1, 0⟩ (0 : Matrix (Fin 1) (Fin 1) ℚ) [])
        (0 : Matrix (Fin 1) (Fin 1) ℚ) (fun _ => 0 : Fin 1 → Fin 1)
        (fun _ => 0 : Fin 1 → Fin 1) (fun _ => 1) (fun _ _ => 1)
        ([0] : List (Fin 1))
      = Except.error "AttributeError: verbose_iter_" :=
  ⟨rfl, single_batch_fit_default_verbose_raises _ rfl _ _ _ _ _ _ _ _⟩

theorem update_dict_atom_norms_le_one_witness :
    (∀ j : Fin 1, 0 ≤ (0 : Fin 1 → ℚ) j ∧ (0 : Fin 1 → ℚ) j
      + enet_norm_fast (((fun _ _ => 1/2) : Matrix (Fin 1) (Fin 2) ℚ) j) 0
        ≤ 1) ∧
    enet_norm_fast
      ((update_dict "masked" false 0 0 (fun _ => 0 : Fin 1 → Fin 2)
        ([0] : List (Fin 1)) ((fun _ _ => 1/2) : Matrix (Fin 1) (Fin 2) ℚ)
        0 (0 : Fin 1 → ℚ) 0).components_ 0) 0 ≤ 1 :=
  ⟨by intro j; constructor <;>
     norm_num [enet_norm_fast, Fin.sum_univ_two, Pi.zero_apply],
   update_dict_atom_norms_le_one "masked" false (by norm_num) (by norm_num)
     0 (by decide) ([0] : List (Fin 1))
     ((fun _ _ => 1/2) : Matrix (Fin 1) (Fin 2) ℚ) 0 (0 : Fin 1 → ℚ) 0
     (by intro j; constructor <;>
       norm_num [enet_norm_fast, Fin.sum_univ_two, Pi.zero_apply]) 0⟩

theorem update_dict_full_gram_invariant_witness :
    (1 : Matrix (Fin 1) (Fin 1) ℚ)
      = (1 : Matrix (Fin 1) (Fin 1) ℚ) * (1 : Matrix (Fin 1) (Fin 1) ℚ)ᵀ ∧
    (update_dict "full" false 0 0 (fun t => t : Fin 1 → Fin 1)
        ([0] : List (Fin 1)) (1 : Matrix (Fin 1) (Fin 1) ℚ)
        0 (0 : Fin 1 → ℚ) 1).G_
      = (update_dict "full" false 0 0 (fun t => t : Fin 1 → Fin 1)
          ([0] : List (Fin 1)) (1 : Matrix (Fin 1) (Fin 1) ℚ)
          0 (0 : Fin 1 → ℚ) 1).components_
        * ((update_dict "full" false 0 0 (fun t => t : Fin 1 → Fin 1)
          ([0] : List (Fin 1)) (1 : Matrix (Fin 1) (Fin 1) ℚ)
          0 (0 : Fin 1 → ℚ) 1).components_)ᵀ :=
  ⟨by simp,
   update_dict_full_gram_invariant false 0 0 1 (by decide)
     ([0] : List (Fin 1)) (1 : Matrix (Fin 1) (Fin 1) ℚ) 0
     (0 : Fin 1 → ℚ) (by simp)⟩

theorem update_dict_degenerate_atom_unchanged_witness :
    (0 : Matrix (Fin 1) (Fin 1) ℚ) 0 0 ≤ 1 / 10 ^ 20 ∧
    (update_dict "masked" true 0 0 (fun _ => 0 : Fin 1 → Fin 2)
        ([0] : List (Fin 1)) ((fun _ _ => 1) : Matrix (Fin 1) (Fin 2) ℚ)
        0 (0 : Fin 1 → ℚ) 0).components_ 0 0
      = ((fun _ _ => 1) : Matrix (Fin 1) (Fin 2) ℚ) 0 0 :=
  ⟨by norm_num [Matrix.zero_apply],
   update_dict_degenerate_atom_unchanged "masked" true (by norm_num)
     (by norm_num) 0 (fun _ => 0 : Fin 1 → Fin 2) ([0] : List (Fin 1))
     ((fun _ _ => 1) : Matrix (Fin 1) (Fin 2) ℚ) 0 (0 : Fin 1 → ℚ) 0
     (by norm_num [Matrix.zero_apply]) (by norm_num [Pi.zero_apply])
     (fun _ t => by norm_num) 0⟩

theorem clip_step_touches_only_current_atom_witness :
    (∀ i : Fin 2, i ≠ 0 → ∀ t : Fin 1, 0 ≤ !![(-1 : ℚ); 1] i t) ∧
    clip_negative !![(-1 : ℚ); 1]
      = Matrix.updateRow !![(-1 : ℚ); 1] 0
          (fun t => if !![(-1 : ℚ); 1] 0 t < 0 then 0
                    else !![(-1 : ℚ); 1] 0 t) :=
  ⟨by decide, clip_step_touches_only_current_atom 0 !![(-1 : ℚ); 1]
    (by decide)⟩

/-- A small prepared engine used to witness the `transform` and `score`
theorems at a concrete input. -/
def demo_engine : DictFact 1 1 1 :=
  prepare ⟨1, 1, 76/100, "masked", "masked", 1, 1, 0, false, false, 10, 1, 0⟩
    (0 : Matrix (Fin 1) (Fin 1) ℚ) []

theorem transform_pure_and_repeatable_witness :
    (demo_engine.cfg.G_agg = "full" → demo_engine.G_.isSome) ∧
    ∃ code, transform demo_engine (0 : Matrix (Fin 1) (Fin 1) ℚ)
        = Except.ok (code, demo_engine) ∧
      (transform demo_engine (0 : Matrix (Fin 1) (Fin 1) ℚ)).bind
          (fun p => transform p.2 (0 : Matrix (Fin 1) (Fin 1) ℚ))
        = Except.ok (code, demo_engine) :=
  ⟨fun h => absurd h (by decide),
   transform_pure_and_repeatable demo_engine 0
     (fun h => absurd h (by decide))⟩

theorem score_mean_penalized_loss_witness :
    (demo_engine.cfg.G_agg = "full" → demo_engine.G_.isSome) ∧
    ∃ code, transform demo_engine (0 : Matrix (Fin 1) (Fin 1) ℚ)
        = Except.ok (code, demo_engine) ∧
      score demo_engine (0 : Matrix (Fin 1) (Fin 1) ℚ) = Except.ok
        (((∑ i, ∑ j, ((0 : Matrix (Fin 1) (Fin 1) ℚ) i j
            - ∑ t, code i t * demo_engine.components_ t j) ^ 2) / 2
          + demo_engine.cfg.code_alpha
            * ((∑ i, ∑ t, |code i t|) * demo_engine.cfg.code_l1r
              + (1 - demo_engine.cfg.code_l1r)
                * (∑ i, ∑ t, (code i t) ^ 2) / 2)) / ((1 : ℕ) : ℚ),
         demo_engine) :=
  ⟨fun h => absurd h (by decide),
   score_mean_penalized_loss demo_engine 0 (fun h => absurd h (by decide))⟩

end Modl
